import Mathlib

/-!
Verification of the throttle-proxy middleware chain: a shallow embedding of
the AIMD backpressure controller, the per-signal throttle computation, the
signal poller, the query-cost bypass, the jitterer and the observer, with
theorems about the admission, watermark and bookkeeping behaviour.

Go machine integers are modelled as `Int`; `float64` allowance values are
modelled as `Rat` in the controller state machine (every finite float64 value
is a rational, and multiplication/`int()` truncation are idealised as exact
rational operations), and as `Real` where the throttle formula uses `exp`.
-/

namespace ThrottleProxy

/-- Go's `int(f)` conversion: truncation toward zero. -/
def truncQ (q : ℚ) : ℤ := if 0 ≤ q then ⌊q⌋ else -⌊-q⌋

/-- The mutable fields of `Backpressure` (backpressure.go): the congestion
window `watermark`, the in-flight counter `active`, the configured window
bounds `min`/`max` (named `wmin`/`wmax` here) and the aggregate `allowance`. -/
structure BPState where
  watermark : ℤ
  active : ℤ
  wmin : ℤ
  wmax : ℤ
  allowance : ℚ
deriving DecidableEq, Repr

/-- `ErrBackpressureBackoff`, a `RequestBlockedError`. -/
inductive BPError
  | backpressureBackoff
deriving DecidableEq, Repr

namespace Backpressure

/-- `Backpressure.check`: under the lock, fail with `ErrBackpressureBackoff`
when `active >= watermark`, otherwise increment `active`. The returned state
is the controller state after the call. -/
def check (s : BPState) : Option BPError × BPState :=
  if s.active ≥ s.watermark then (some .backpressureBackoff, s)
  else (none, { s with active := s.active + 1 })

/-- `Backpressure.constrainWatermark`: clamp the watermark to
`int(float64(max) * allowance)` from above and to `min` from below,
in that order. -/
def constrainWatermark (s : BPState) : BPState :=
  let w := min s.watermark (truncQ ((s.wmax : ℚ) * s.allowance))
  { s with watermark := max w s.wmin }

/-- `Backpressure.release`: `active = max(0, active-1)`, then `watermark++`,
then `constrainWatermark`. -/
def release (s : BPState) : BPState :=
  let s1 := { s with active := max 0 (s.active - 1) }
  constrainWatermark { s1 with watermark := s1.watermark + 1 }

/-- The allowance mutation performed by `Backpressure.updateThrottle` under
the lock: store the new aggregate allowance, then `constrainWatermark`
within the same update. -/
def updateAllowance (a : ℚ) (s : BPState) : BPState :=
  constrainWatermark { s with allowance := a }

end Backpressure

/-- One observable operation on the controller: an admission attempt
(`check`), a `release`, or an allowance update by a signal poll. -/
inductive BPOp
  | check
  | release
  | update (a : ℚ)
deriving DecidableEq, Repr

def BPOp.isUpdate : BPOp → Bool
  | .update _ => true
  | _ => false

/-- Apply one operation: a failed admission leaves the state unchanged. -/
def BPState.step (s : BPState) : BPOp → BPState
  | .check => (Backpressure.check s).2
  | .release => Backpressure.release s
  | .update a => Backpressure.updateAllowance a s

/-- Run a sequence of operations. -/
def BPState.run (s : BPState) (ops : List BPOp) : BPState :=
  ops.foldl BPState.step s

/-- `NewBackpressure`: watermark starts at the configured minimum, `active`
at zero (Go zero value), allowance at 1. -/
def NewBackpressure (minWindow maxWindow : ℤ) : BPState :=
  { watermark := minWindow, active := 0, wmin := minWindow, wmax := maxWindow, allowance := 1 }

theorem truncQ_of_nonneg {q : ℚ} (h : 0 ≤ q) : truncQ q = ⌊q⌋ := by
  simp [truncQ, h]

theorem truncQ_intCast (n : ℤ) : truncQ (n : ℚ) = n := by
  unfold truncQ
  split
  · exact Int.floor_intCast n
  · rw [← Int.cast_neg, Int.floor_intCast]
    omega

/-- C1: `check` fails with the backoff block error exactly when
`active ≥ watermark`, leaving the state unchanged, and otherwise increments
`active` by one; `release` sets `active = max(0, active-1)`, increments the
watermark and then constrains it, so that the result is at least `min` and,
whenever `⌊max · allowance⌋ ≥ min`, at most `⌊max · allowance⌋`.  In
particular `active = watermark` makes the next admission fail. -/
theorem check_release_spec (s : BPState) (hA : 0 ≤ s.allowance) (hM : 0 ≤ s.wmax) :
    ((Backpressure.check s).1 = some .backpressureBackoff ↔ s.watermark ≤ s.active) ∧
    ((Backpressure.check s).1 ≠ none → (Backpressure.check s).2 = s) ∧
    (s.active < s.watermark →
      Backpressure.check s = (none, { s with active := s.active + 1 })) ∧
    (Backpressure.release s).active = max 0 (s.active - 1) ∧
    (Backpressure.release s).watermark
      = max s.wmin (min (s.watermark + 1) ⌊(s.wmax : ℚ) * s.allowance⌋) ∧
    s.wmin ≤ (Backpressure.release s).watermark ∧
    (s.wmin ≤ ⌊(s.wmax : ℚ) * s.allowance⌋ →
      (Backpressure.release s).watermark ≤ ⌊(s.wmax : ℚ) * s.allowance⌋) ∧
    (s.active = s.watermark → (Backpressure.check s).1 = some .backpressureBackoff) := by
  have hprod : (0 : ℚ) ≤ (s.wmax : ℚ) * s.allowance := by positivity
  have htr : truncQ ((s.wmax : ℚ) * s.allowance) = ⌊(s.wmax : ℚ) * s.allowance⌋ :=
    truncQ_of_nonneg hprod
  refine ⟨?_, ?_, ?_, ?_, ?_, ?_, ?_, ?_⟩
  · unfold Backpressure.check
    split <;> simp_all
  · unfold Backpressure.check
    split
    · intro _
      rfl
    · intro h
      simp at h
  · intro h
    unfold Backpressure.check
    rw [if_neg (by omega)]
  · simp [Backpressure.release, Backpressure.constrainWatermark]
  · simp only [Backpressure.release, Backpressure.constrainWatermark, htr]
    omega
  · simp only [Backpressure.release, Backpressure.constrainWatermark, htr]
    omega
  · intro h
    simp only [Backpressure.release, Backpressure.constrainWatermark, htr]
    omega
  · intro h
    unfold Backpressure.check
    rw [if_pos (by omega)]

/-- C1 witness: the admission and release equations evaluated on a concrete
controller state with `watermark = 2`, `active = 2`, `min = 1`, `max = 4`,
`allowance = 1/2`. -/
theorem check_release_spec_witness :
    ((Backpressure.check ⟨2, 2, 1, 4, 1/2⟩).1 = some .backpressureBackoff ↔
        (2 : ℤ) ≤ 2) ∧
    ((Backpressure.check ⟨2, 2, 1, 4, 1/2⟩).1 ≠ none →
        (Backpressure.check ⟨2, 2, 1, 4, 1/2⟩).2 = ⟨2, 2, 1, 4, 1/2⟩) ∧
    ((2 : ℤ) < 2 → Backpressure.check ⟨2, 2, 1, 4, 1/2⟩ =
        (none, ⟨2, 2 + 1, 1, 4, 1/2⟩)) ∧
    (Backpressure.release ⟨2, 2, 1, 4, 1/2⟩).active = max 0 (2 - 1) ∧
    (Backpressure.release ⟨2, 2, 1, 4, 1/2⟩).watermark
      = max 1 (min (2 + 1) ⌊((4 : ℤ) : ℚ) * (1/2)⌋) ∧
    (1 : ℤ) ≤ (Backpressure.release ⟨2, 2, 1, 4, 1/2⟩).watermark ∧
    ((1 : ℤ) ≤ ⌊((4 : ℤ) : ℚ) * (1/2)⌋ →
      (Backpressure.release ⟨2, 2, 1, 4, 1/2⟩).watermark ≤ ⌊((4 : ℤ) : ℚ) * (1/2)⌋) ∧
    ((2 : ℤ) = 2 → (Backpressure.check ⟨2, 2, 1, 4, 1/2⟩).1 = some .backpressureBackoff) :=
  check_release_spec ⟨2, 2, 1, 4, 1/2⟩ (by norm_num) (by norm_num)

theorem release_active (s : BPState) :
    (Backpressure.release s).active = max 0 (s.active - 1) := rfl

theorem step_config (s : BPState) (op : BPOp) :
    (s.step op).wmin = s.wmin ∧ (s.step op).wmax = s.wmax := by
  cases op with
  | check =>
      unfold BPState.step Backpressure.check
      dsimp only
      split <;> exact ⟨rfl, rfl⟩
  | release => exact ⟨rfl, rfl⟩
  | update a => exact ⟨rfl, rfl⟩

theorem run_config (s : BPState) (ops : List BPOp) :
    ((s.run ops).wmin = s.wmin ∧ (s.run ops).wmax = s.wmax) := by
  induction ops generalizing s with
  | nil => exact ⟨rfl, rfl⟩
  | cons op rest ih =>
      have hstep := step_config s op
      have htail := ih (s.step op)
      exact ⟨hstep.1 ▸ htail.1, hstep.2 ▸ htail.2⟩

theorem step_active_nonneg {s : BPState} (h : 0 ≤ s.active) (op : BPOp) :
    0 ≤ (s.step op).active := by
  cases op with
  | check =>
      unfold BPState.step Backpressure.check
      dsimp only
      split
      · exact h
      · show (0 : ℤ) ≤ s.active + 1
        omega
  | release =>
      show 0 ≤ (Backpressure.release s).active
      rw [release_active]
      omega
  | update a => exact h

theorem run_active_nonneg {s : BPState} (h : 0 ≤ s.active) (ops : List BPOp) :
    0 ≤ (s.run ops).active := by
  induction ops generalizing s with
  | nil => exact h
  | cons op rest ih => exact ih (step_active_nonneg h op)

/-- The state predicate maintained by admissions and releases alone (the
allowance stays at its startup value 1 when no poll ever updates it). -/
def AdmitReleaseInv (s : BPState) : Prop :=
  1 ≤ s.wmin ∧ s.wmin ≤ s.wmax ∧ 0 ≤ s.active ∧ s.active ≤ s.watermark ∧
    s.wmin ≤ s.watermark ∧ s.watermark ≤ s.wmax ∧ s.allowance = 1

theorem step_admitRelease_inv {s : BPState} (h : AdmitReleaseInv s) {op : BPOp}
    (hop : op.isUpdate = false) : AdmitReleaseInv (s.step op) := by
  obtain ⟨h1, h2, h3, h4, h5, h6, h7⟩ := h
  cases op with
  | check =>
      unfold BPState.step Backpressure.check
      dsimp only
      split
      · exact ⟨h1, h2, h3, h4, h5, h6, h7⟩
      · refine ⟨h1, h2, ?_, ?_, h5, h6, h7⟩
        · show (0 : ℤ) ≤ s.active + 1
          omega
        · show s.active + 1 ≤ s.watermark
          omega
  | release =>
      have htr : truncQ ((s.wmax : ℚ) * s.allowance) = s.wmax := by
        rw [h7, mul_one, truncQ_intCast]
      refine ⟨h1, h2, ?_, ?_, ?_, ?_, h7⟩
      · show (0 : ℤ) ≤ max 0 (s.active - 1)
        omega
      · show max 0 (s.active - 1)
            ≤ max (min (s.watermark + 1) (truncQ ((s.wmax : ℚ) * s.allowance))) s.wmin
        rw [htr]
        omega
      · show s.wmin ≤ max (min (s.watermark + 1) (truncQ ((s.wmax : ℚ) * s.allowance))) s.wmin
        rw [htr]
        omega
      · show max (min (s.watermark + 1) (truncQ ((s.wmax : ℚ) * s.allowance))) s.wmin ≤ s.wmax
        rw [htr]
        omega
  | update a => simp [BPOp.isUpdate] at hop

theorem run_admitRelease_inv {s : BPState} (h : AdmitReleaseInv s) {ops : List BPOp}
    (hops : ∀ op ∈ ops, op.isUpdate = false) : AdmitReleaseInv (s.run ops) := by
  induction ops generalizing s with
  | nil => exact h
  | cons op rest ih =>
      exact ih (step_admitRelease_inv h (hops op (by simp)))
        (fun o ho => hops o (List.mem_cons_of_mem op ho))

/-- A trace on which `active ≤ watermark` breaks: grow the watermark to 2 with
a release, fill the window with two admissions, then let a signal poll drop
the allowance to 0, which shrinks the watermark to `min = 1` while both
requests are still in flight. -/
def shrinkTrace : List BPOp := [.check, .release, .check, .check, .update 0]

/-- C2 counterexample: for the controller started with `min = 1`, `max = 4`,
the trace `shrinkTrace` ends with `active = 2 > 1 = watermark`, so the claim
that `0 ≤ active ≤ watermark` holds at every observation point — including
immediately after an allowance update that shrinks the watermark — is false. -/
theorem active_le_watermark_fails :
    ¬ ((NewBackpressure 1 4).run shrinkTrace).active
        ≤ ((NewBackpressure 1 4).run shrinkTrace).watermark := by
  norm_num [BPState.run, shrinkTrace, BPState.step, Backpressure.check,
    Backpressure.release, Backpressure.updateAllowance, Backpressure.constrainWatermark,
    NewBackpressure, truncQ]

/-- C2 (amended): `0 ≤ active` holds at every observation point of every
sequence of operations, and `0 ≤ active ≤ watermark` holds at every
observation point of every sequence of admissions and releases alone; an
allowance update that shrinks the watermark below the current active count
leaves `active > watermark` (see the counterexample). -/
theorem active_in_window (wmin wmax : ℤ) (h1 : 1 ≤ wmin) (h2 : wmin ≤ wmax)
    (ops : List BPOp) :
    0 ≤ ((NewBackpressure wmin wmax).run ops).active ∧
    ((∀ op ∈ ops, op.isUpdate = false) →
      0 ≤ ((NewBackpressure wmin wmax).run ops).active ∧
      ((NewBackpressure wmin wmax).run ops).active
        ≤ ((NewBackpressure wmin wmax).run ops).watermark) := by
  constructor
  · exact run_active_nonneg (by simp [NewBackpressure]) ops
  · intro hops
    have hinit : AdmitReleaseInv (NewBackpressure wmin wmax) :=
      ⟨h1, h2, le_refl 0, by show (0 : ℤ) ≤ wmin; omega, le_refl wmin, h2, rfl⟩
    have hinv := run_admitRelease_inv hinit hops
    exact ⟨hinv.2.2.1, hinv.2.2.2.1⟩

/-- C2 witness: the amended statement at `min = 1`, `max = 4` on the
single-admission trace. -/
theorem active_in_window_witness :
    0 ≤ ((NewBackpressure 1 4).run [BPOp.check]).active ∧
    ((∀ op ∈ [BPOp.check], op.isUpdate = false) →
      0 ≤ ((NewBackpressure 1 4).run [BPOp.check]).active ∧
      ((NewBackpressure 1 4).run [BPOp.check]).active
        ≤ ((NewBackpressure 1 4).run [BPOp.check]).watermark) :=
  active_in_window 1 4 (by decide) (by decide) [BPOp.check]

/-- Every allowance value delivered by an update operation in a trace lies
in `[0, 1]`. -/
def UpdatesIn01 (ops : List BPOp) : Prop :=
  ∀ a : ℚ, BPOp.update a ∈ ops → 0 ≤ a ∧ a ≤ 1

theorem truncQ_mul_le {wmax : ℤ} {a : ℚ} (hw : 0 ≤ wmax) (h0 : 0 ≤ a) (h1 : a ≤ 1) :
    truncQ ((wmax : ℚ) * a) ≤ wmax := by
  have hwq : (0 : ℚ) ≤ (wmax : ℚ) := by exact_mod_cast hw
  rw [truncQ_of_nonneg (by positivity)]
  calc ⌊(wmax : ℚ) * a⌋ ≤ ⌊(wmax : ℚ)⌋ := Int.floor_le_floor (by nlinarith)
    _ = wmax := Int.floor_intCast wmax

/-- The watermark stays inside the configured window and the allowance is a
fraction; maintained by every operation whose allowance argument is in
`[0, 1]`. -/
def WatermarkInv (s : BPState) : Prop :=
  1 ≤ s.wmin ∧ s.wmin ≤ s.wmax ∧ s.wmin ≤ s.watermark ∧ s.watermark ≤ s.wmax ∧
    0 ≤ s.allowance ∧ s.allowance ≤ 1

theorem step_watermark_inv {s : BPState} (h : WatermarkInv s) {op : BPOp}
    (hop : ∀ a : ℚ, op = .update a → 0 ≤ a ∧ a ≤ 1) : WatermarkInv (s.step op) := by
  obtain ⟨h1, h2, h3, h4, h5, h6⟩ := h
  have hw : (0 : ℤ) ≤ s.wmax := by omega
  cases op with
  | check =>
      unfold BPState.step Backpressure.check
      dsimp only
      split
      · exact ⟨h1, h2, h3, h4, h5, h6⟩
      · exact ⟨h1, h2, h3, h4, h5, h6⟩
  | release =>
      have htr : truncQ ((s.wmax : ℚ) * s.allowance) ≤ s.wmax := truncQ_mul_le hw h5 h6
      refine ⟨h1, h2, ?_, ?_, h5, h6⟩
      · show s.wmin ≤ max (min (s.watermark + 1) (truncQ ((s.wmax : ℚ) * s.allowance))) s.wmin
        omega
      · show max (min (s.watermark + 1) (truncQ ((s.wmax : ℚ) * s.allowance))) s.wmin ≤ s.wmax
        omega
  | update a =>
      obtain ⟨ha0, ha1⟩ := hop a rfl
      refine ⟨h1, h2, ?_, ?_, ha0, ha1⟩
      · show s.wmin ≤ max (min s.watermark (truncQ ((s.wmax : ℚ) * a))) s.wmin
        omega
      · show max (min s.watermark (truncQ ((s.wmax : ℚ) * a))) s.wmin ≤ s.wmax
        omega

theorem run_watermark_inv {s : BPState} (h : WatermarkInv s) {ops : List BPOp}
    (hops : UpdatesIn01 ops) : WatermarkInv (s.run ops) := by
  induction ops generalizing s with
  | nil => exact h
  | cons op rest ih =>
      refine ih (step_watermark_inv h ?_) ?_
      · intro a ha
        exact hops a (ha ▸ List.mem_cons_self op rest)
      · intro a ha
        exact hops a (List.mem_cons_of_mem op ha)

/-- After an allowance update to `a`, and until the next update, the
watermark is bounded by `max min ⌊max · a⌋` and pinned to `min` when the
floor falls below `min`. -/
def PostUpdateInv (a : ℚ) (s : BPState) : Prop :=
  0 ≤ s.wmax ∧ 0 ≤ a ∧ s.allowance = a ∧
    s.watermark ≤ max s.wmin ⌊(s.wmax : ℚ) * a⌋ ∧
    (⌊(s.wmax : ℚ) * a⌋ < s.wmin → s.watermark = s.wmin)

theorem updateAllowance_post {s : BPState} (hw : 0 ≤ s.wmax) {a : ℚ} (ha : 0 ≤ a) :
    PostUpdateInv a (Backpressure.updateAllowance a s) := by
  have htr : truncQ ((s.wmax : ℚ) * a) = ⌊(s.wmax : ℚ) * a⌋ := by
    have hwq : (0 : ℚ) ≤ (s.wmax : ℚ) := by exact_mod_cast hw
    exact truncQ_of_nonneg (by positivity)
  refine ⟨hw, ha, rfl, ?_, ?_⟩
  · show max (min s.watermark (truncQ ((s.wmax : ℚ) * a))) s.wmin
        ≤ max s.wmin ⌊(s.wmax : ℚ) * a⌋
    rw [htr]
    omega
  · intro hlt
    have hlt2 : ⌊(s.wmax : ℚ) * a⌋ < s.wmin := hlt
    show max (min s.watermark (truncQ ((s.wmax : ℚ) * a))) s.wmin = s.wmin
    rw [htr]
    omega

theorem step_postUpdate_inv {a : ℚ} {s : BPState} (h : PostUpdateInv a s) {op : BPOp}
    (hop : op.isUpdate = false) : PostUpdateInv a (s.step op) := by
  obtain ⟨hw, ha, hall, hb, hpin⟩ := h
  have htr : truncQ ((s.wmax : ℚ) * s.allowance) = ⌊(s.wmax : ℚ) * a⌋ := by
    have hwq : (0 : ℚ) ≤ (s.wmax : ℚ) := by exact_mod_cast hw
    rw [hall]
    exact truncQ_of_nonneg (by positivity)
  cases op with
  | check =>
      unfold BPState.step Backpressure.check
      dsimp only
      split
      · exact ⟨hw, ha, hall, hb, hpin⟩
      · exact ⟨hw, ha, hall, hb, hpin⟩
  | release =>
      refine ⟨hw, ha, hall, ?_, ?_⟩
      · show max (min (s.watermark + 1) (truncQ ((s.wmax : ℚ) * s.allowance))) s.wmin
            ≤ max s.wmin ⌊(s.wmax : ℚ) * a⌋
        rw [htr]
        omega
      · intro hlt
        have hlt2 : ⌊(s.wmax : ℚ) * a⌋ < s.wmin := hlt
        show max (min (s.watermark + 1) (truncQ ((s.wmax : ℚ) * s.allowance))) s.wmin = s.wmin
        rw [htr]
        omega
  | update b => simp [BPOp.isUpdate] at hop

theorem run_postUpdate_inv {a : ℚ} {s : BPState} (h : PostUpdateInv a s) {ops : List BPOp}
    (hops : ∀ op ∈ ops, op.isUpdate = false) : PostUpdateInv a (s.run ops) := by
  induction ops generalizing s with
  | nil => exact h
  | cons op rest ih =>
      exact ih (step_postUpdate_inv h (hops op (List.mem_cons_self op rest)))
        (fun o ho => hops o (List.mem_cons_of_mem op ho))

/-- C3: for every trace from the initial controller state whose allowance
updates stay in `[0, 1]`, the watermark stays in `[min, max]`; and after an
update with allowance `a`, every later observation up to the next update
satisfies `watermark ≤ max min ⌊max · a⌋`, with `watermark = min` whenever
`⌊max · a⌋ < min`. -/
theorem watermark_bounds (wmin wmax : ℤ) (h1 : 1 ≤ wmin) (h2 : wmin ≤ wmax)
    (ops1 ops2 : List BPOp) (a : ℚ) (ha0 : 0 ≤ a) (ha1 : a ≤ 1)
    (hu2 : ∀ op ∈ ops2, op.isUpdate = false) :
    (∀ ops : List BPOp, UpdatesIn01 ops →
      wmin ≤ ((NewBackpressure wmin wmax).run ops).watermark ∧
      ((NewBackpressure wmin wmax).run ops).watermark ≤ wmax) ∧
    ((NewBackpressure wmin wmax).run (ops1 ++ BPOp.update a :: ops2)).watermark
      ≤ max wmin ⌊(wmax : ℚ) * a⌋ ∧
    (⌊(wmax : ℚ) * a⌋ < wmin →
      ((NewBackpressure wmin wmax).run (ops1 ++ BPOp.update a :: ops2)).watermark = wmin) := by
  have hinit : WatermarkInv (NewBackpressure wmin wmax) :=
    ⟨h1, h2, le_refl wmin, h2, by show (0 : ℚ) ≤ 1; norm_num, le_refl 1⟩
  refine ⟨?_, ?_⟩
  · intro ops hops
    have hinv := run_watermark_inv hinit hops
    have hc := run_config (NewBackpressure wmin wmax) ops
    refine ⟨?_, ?_⟩
    · have h := hinv.2.2.1
      rw [hc.1] at h
      exact h
    · have h := hinv.2.2.2.1
      rw [hc.2] at h
      exact h
  · set s0 := NewBackpressure wmin wmax with hs0
    have hsplit : s0.run (ops1 ++ BPOp.update a :: ops2)
        = (Backpressure.updateAllowance a (s0.run ops1)).run ops2 := by
      unfold BPState.run
      rw [List.foldl_append, List.foldl_cons]
      rfl
    have hcfg := run_config s0 ops1
    have hw : 0 ≤ (s0.run ops1).wmax := by
      rw [hcfg.2]
      show (0 : ℤ) ≤ wmax
      omega
    have hpost := run_postUpdate_inv (updateAllowance_post hw ha0) hu2
    have hcfg2 := run_config (Backpressure.updateAllowance a (s0.run ops1)) ops2
    have hwmin : ((Backpressure.updateAllowance a (s0.run ops1)).run ops2).wmin = wmin := by
      rw [hcfg2.1]
      show (s0.run ops1).wmin = wmin
      rw [hcfg.1]
      rfl
    have hwmax : ((Backpressure.updateAllowance a (s0.run ops1)).run ops2).wmax = wmax := by
      rw [hcfg2.2]
      show (s0.run ops1).wmax = wmax
      rw [hcfg.2]
      rfl
    obtain ⟨-, -, -, hb, hpin⟩ := hpost
    rw [hwmin, hwmax] at hb hpin
    rw [hsplit]
    exact ⟨hb, hpin⟩

/-- C3 witness: with `min = 1`, `max = 4`, an update to allowance `1/2`
followed by a release keeps the watermark at most
`max 1 ⌊4 · (1/2)⌋ = 2`. -/
theorem watermark_bounds_witness :
    (∀ ops : List BPOp, UpdatesIn01 ops →
      1 ≤ ((NewBackpressure 1 4).run ops).watermark ∧
      ((NewBackpressure 1 4).run ops).watermark ≤ 4) ∧
    ((NewBackpressure 1 4).run ([] ++ BPOp.update (1/2) :: [BPOp.release])).watermark
      ≤ max 1 ⌊((4 : ℤ) : ℚ) * (1/2)⌋ ∧
    (⌊((4 : ℤ) : ℚ) * (1/2)⌋ < 1 →
      ((NewBackpressure 1 4).run ([] ++ BPOp.update (1/2) :: [BPOp.release])).watermark = 1) :=
  watermark_bounds 1 4 (by norm_num) (by norm_num) [] [BPOp.release] (1/2)
    (by norm_num) (by norm_num) (by simp [BPOp.isUpdate])

/-! ## Per-signal throttle computation and throttle aggregation

The throttle formula uses `math.Exp`; this layer models `float64` values as
real numbers. -/

def DefaultThrottleCurve : ℝ := 4

/-- `BackpressureQuery`: one configured signal. -/
structure BackpressureQuery where
  name : String
  query : String
  warningThreshold : ℝ
  emergencyThreshold : ℝ
  throttlingCurve : ℝ

/-- `BackpressureQuery.throttlePercent`: 0 up to the warning threshold, 1 from
the emergency threshold on, and `1 - exp(-curve * loadFactor)` in between,
with the zero-value curve replaced by `DefaultThrottleCurve`. -/
noncomputable def throttlePercent (q : BackpressureQuery) (curr : ℝ) : ℝ :=
  if curr ≤ q.warningThreshold then 0
  else if curr ≥ q.emergencyThreshold then 1
  else
    1 - Real.exp (-(if q.throttlingCurve = 0 then DefaultThrottleCurve else q.throttlingCurve) *
      ((curr - q.warningThreshold) / (q.emergencyThreshold - q.warningThreshold)))

/-- C4: with `warn < emergency` (both non-negative), the per-signal throttle
is 0 at or below `warn`, 1 at or above `emergency`, and the exponential-decay
expression strictly in between, with the unset (zero) curve replaced by the
default 4.0; in particular `v = warn` gives 0 and `v = emergency` gives 1. -/
theorem throttle_percent_spec (q : BackpressureQuery) (v : ℝ)
    (hw : 0 ≤ q.warningThreshold) (h : q.warningThreshold < q.emergencyThreshold) :
    (v ≤ q.warningThreshold → throttlePercent q v = 0) ∧
    (q.emergencyThreshold ≤ v → throttlePercent q v = 1) ∧
    (q.warningThreshold < v → v < q.emergencyThreshold →
      throttlePercent q v = 1 - Real.exp
        (-(if q.throttlingCurve = 0 then DefaultThrottleCurve else q.throttlingCurve) *
          ((v - q.warningThreshold) / (q.emergencyThreshold - q.warningThreshold)))) ∧
    throttlePercent q q.warningThreshold = 0 ∧
    throttlePercent q q.emergencyThreshold = 1 := by
  refine ⟨?_, ?_, ?_, ?_, ?_⟩
  · intro hv
    simp [throttlePercent, hv]
  · intro hv
    rw [throttlePercent, if_neg (by linarith), if_pos hv]
  · intro hv1 hv2
    rw [throttlePercent, if_neg (by linarith), if_neg (by simp only [ge_iff_le, not_le]; linarith)]
  · simp [throttlePercent]
  · rw [throttlePercent, if_neg (by linarith), if_pos (le_refl _)]

/-- A concrete signal for the witnesses: `warn = 0`, `emergency = 1`,
unset curve. -/
noncomputable def cpuQuery : BackpressureQuery :=
  ⟨"cpu", "cpu_usage", 0, 1, 0⟩

/-- C4 witness: the throttle clauses evaluated for `cpuQuery` at `v = 2`. -/
theorem throttle_percent_spec_witness :
    ((2 : ℝ) ≤ cpuQuery.warningThreshold → throttlePercent cpuQuery 2 = 0) ∧
    (cpuQuery.emergencyThreshold ≤ (2 : ℝ) → throttlePercent cpuQuery 2 = 1) ∧
    (cpuQuery.warningThreshold < (2 : ℝ) → (2 : ℝ) < cpuQuery.emergencyThreshold →
      throttlePercent cpuQuery 2 = 1 - Real.exp
        (-(if cpuQuery.throttlingCurve = 0 then DefaultThrottleCurve else cpuQuery.throttlingCurve) *
          (((2 : ℝ) - cpuQuery.warningThreshold) /
            (cpuQuery.emergencyThreshold - cpuQuery.warningThreshold)))) ∧
    throttlePercent cpuQuery cpuQuery.warningThreshold = 0 ∧
    throttlePercent cpuQuery cpuQuery.emergencyThreshold = 1 :=
  throttle_percent_spec cpuQuery 2
    (by show (0 : ℝ) ≤ 0; norm_num) (by show (0 : ℝ) < 1; norm_num)

noncomputable instance : DecidableEq BackpressureQuery := Classical.decEq _

/-- `util.SyncMap.Store` on the `throttleFlags` map, the map viewed as an
association list with at most one entry per key: replace the value when the
key is present, insert otherwise. -/
noncomputable def mapStore (flags : List (BackpressureQuery × ℝ)) (q : BackpressureQuery) (v : ℝ) :
    List (BackpressureQuery × ℝ) :=
  if ∃ p ∈ flags, p.1 = q then
    flags.map (fun p => if p.1 = q then (q, v) else p)
  else
    (q, v) :: flags

/-- Reading one key of the `throttleFlags` map. -/
noncomputable def mapLookup (flags : List (BackpressureQuery × ℝ)) (q : BackpressureQuery) :
    Option ℝ :=
  (flags.find? (fun p => decide (p.1 = q))).map Prod.snd

theorem find?_map_replace (q : BackpressureQuery) (v : ℝ) (flags : List (BackpressureQuery × ℝ))
    (hmem : ∃ p ∈ flags, p.1 = q) :
    (flags.map (fun p => if p.1 = q then (q, v) else p)).find? (fun p => decide (p.1 = q))
      = some (q, v) := by
  induction flags with
  | nil => simp at hmem
  | cons p rest ih =>
      by_cases hp : p.1 = q
      · simp only [List.map_cons, if_pos hp]
        rw [List.find?_cons_of_pos _ (by simp)]
      · simp only [List.map_cons, if_neg hp]
        rw [List.find?_cons_of_neg _ (by simp [hp])]
        refine ih ?_
        obtain ⟨r, hr, hrq⟩ := hmem
        rcases List.mem_cons.mp hr with h | h
        · exact absurd (h ▸ hrq) hp
        · exact ⟨r, h, hrq⟩

theorem mapLookup_mapStore (flags : List (BackpressureQuery × ℝ)) (q : BackpressureQuery) (v : ℝ) :
    mapLookup (mapStore flags q v) q = some v := by
  unfold mapStore mapLookup
  split
  · next hmem =>
      rw [find?_map_replace q v flags hmem]
      rfl
  · rw [List.find?_cons_of_pos _ (by simp)]
    rfl

/-- The `Range` fold of `updateThrottle`: the running maximum of the stored
throttle percentages, started at 0. -/
noncomputable def foldMaxThrottle (flags : List (BackpressureQuery × ℝ)) : ℝ :=
  flags.foldl (fun acc p => max acc p.2) 0

theorem le_foldl_max (l : List (BackpressureQuery × ℝ)) (acc : ℝ) :
    acc ≤ l.foldl (fun a p => max a p.2) acc := by
  induction l generalizing acc with
  | nil => exact le_refl acc
  | cons p rest ih => exact le_trans (le_max_left acc p.2) (ih (max acc p.2))

theorem mem_le_foldl_max (l : List (BackpressureQuery × ℝ)) (acc : ℝ) :
    ∀ p ∈ l, p.2 ≤ l.foldl (fun a p => max a p.2) acc := by
  induction l generalizing acc with
  | nil =>
      intro p hp
      simp at hp
  | cons r rest ih =>
      intro p hp
      rcases List.mem_cons.mp hp with h | h
      · subst h
        exact le_trans (le_max_right acc p.2) (le_foldl_max rest (max acc p.2))
      · exact ih (max acc r.2) p h

theorem foldl_max_cases (l : List (BackpressureQuery × ℝ)) (acc : ℝ) :
    l.foldl (fun a p => max a p.2) acc = acc ∨
      ∃ p ∈ l, l.foldl (fun a p => max a p.2) acc = p.2 := by
  induction l generalizing acc with
  | nil => exact Or.inl rfl
  | cons r rest ih =>
      rcases ih (max acc r.2) with h | ⟨p, hp, he⟩
      · rcases max_choice acc r.2 with hm | hm
        · exact Or.inl (by simpa [hm] using h)
        · exact Or.inr ⟨r, List.mem_cons_self r rest, by simpa [hm] using h⟩
      · exact Or.inr ⟨p, List.mem_cons_of_mem r hp, he⟩

/-- Go's `int(f)` conversion on a `float64`, modelled on the reals. -/
noncomputable def truncR (x : ℝ) : ℤ := if 0 ≤ x then ⌊x⌋ else -⌊-x⌋

theorem truncR_of_nonneg {x : ℝ} (h : 0 ≤ x) : truncR x = ⌊x⌋ := by
  simp [truncR, h]

/-- The controller state seen by a signal poll: the scalar fields of
`Backpressure` together with the `throttleFlags` map. -/
structure CtrlState where
  watermark : ℤ
  active : ℤ
  wmin : ℤ
  wmax : ℤ
  allowance : ℝ
  throttleFlags : List (BackpressureQuery × ℝ)

namespace CtrlState

/-- `Backpressure.constrainWatermark` over this state. -/
noncomputable def constrainWatermark (s : CtrlState) : CtrlState :=
  let w := min s.watermark (truncR ((s.wmax : ℝ) * s.allowance))
  { s with watermark := max w s.wmin }

/-- `Backpressure.updateThrottle`: store the fresh throttle percent for `q`,
fold the maximum over the whole map, set `allowance = 1 - maximum` and
constrain the watermark within the same update. -/
noncomputable def updateThrottle (q : BackpressureQuery) (curr : ℝ) (s : CtrlState) : CtrlState :=
  let flags := mapStore s.throttleFlags q (throttlePercent q curr)
  let tp := foldMaxThrottle flags
  constrainWatermark { s with throttleFlags := flags, allowance := 1 - tp }

end CtrlState

/-- C5: after a fresh sample `curr` for signal `q` is processed, the map
holds `q`'s new throttle percent, the allowance is `1 -` the maximum stored
throttle (the fold is an upper bound of every entry, is non-negative — a
signal without a sample contributes the fold's base 0 — and is attained by
an entry unless it is 0), and the watermark is constrained within the same
update: it equals the two-sided clamp, is at least `min`, and is at most
`⌊max * allowance⌋` whenever that floor is at least `min`. -/
theorem update_throttle_spec (s : CtrlState) (q : BackpressureQuery) (curr : ℝ) :
    (CtrlState.updateThrottle q curr s).throttleFlags
      = mapStore s.throttleFlags q (throttlePercent q curr) ∧
    mapLookup (CtrlState.updateThrottle q curr s).throttleFlags q
      = some (throttlePercent q curr) ∧
    (CtrlState.updateThrottle q curr s).allowance
      = 1 - foldMaxThrottle (CtrlState.updateThrottle q curr s).throttleFlags ∧
    (∀ p ∈ (CtrlState.updateThrottle q curr s).throttleFlags,
      p.2 ≤ foldMaxThrottle (CtrlState.updateThrottle q curr s).throttleFlags) ∧
    0 ≤ foldMaxThrottle (CtrlState.updateThrottle q curr s).throttleFlags ∧
    (foldMaxThrottle (CtrlState.updateThrottle q curr s).throttleFlags = 0 ∨
      ∃ p ∈ (CtrlState.updateThrottle q curr s).throttleFlags,
        foldMaxThrottle (CtrlState.updateThrottle q curr s).throttleFlags = p.2) ∧
    (CtrlState.updateThrottle q curr s).watermark
      = max (min s.watermark
          (truncR ((s.wmax : ℝ) * (CtrlState.updateThrottle q curr s).allowance))) s.wmin ∧
    s.wmin ≤ (CtrlState.updateThrottle q curr s).watermark ∧
    ((0 : ℝ) ≤ (s.wmax : ℝ) * (CtrlState.updateThrottle q curr s).allowance →
      s.wmin ≤ ⌊(s.wmax : ℝ) * (CtrlState.updateThrottle q curr s).allowance⌋ →
      (CtrlState.updateThrottle q curr s).watermark
        ≤ ⌊(s.wmax : ℝ) * (CtrlState.updateThrottle q curr s).allowance⌋) := by
  refine ⟨rfl, mapLookup_mapStore _ _ _, rfl, ?_, le_foldl_max _ 0, foldl_max_cases _ 0,
    rfl, ?_, ?_⟩
  · exact mem_le_foldl_max _ 0
  · show s.wmin ≤ max (min s.watermark
        (truncR ((s.wmax : ℝ) * (CtrlState.updateThrottle q curr s).allowance))) s.wmin
    omega
  · intro h0 hfl
    rw [show (CtrlState.updateThrottle q curr s).watermark
      = max (min s.watermark
          (truncR ((s.wmax : ℝ) * (CtrlState.updateThrottle q curr s).allowance))) s.wmin from rfl,
      truncR_of_nonneg h0]
    omega

/-! ## Signal poller -/

/-- What one poll attempt of the monitoring endpoint produced, as consumed
by `ValueFromPromQL` (prometheus.go): whether the HTTP round-trip failed,
the status code, whether the body decoded, and the decoded result vector. -/
structure PollResponse where
  netErr : Bool
  status : ℤ
  decodeOk : Bool
  results : List ℝ

/-- The error cases of `ValueFromPromQL`, in source order. -/
inductive PollError
  | executeRequest
  | unexpectedStatus (code : ℤ)
  | decodeResponse
  | notExactlyOneValue
  | negativeValue
deriving DecidableEq, Repr

/-- `ValueFromPromQL`: error on network failure, non-200 status, undecodable
body, a result vector whose length is not exactly one, or a negative value;
otherwise the scalar. -/
noncomputable def ValueFromPromQL (r : PollResponse) : Except PollError ℝ :=
  if r.netErr = true then .error .executeRequest
  else if r.status ≠ 200 then .error (.unexpectedStatus r.status)
  else if r.decodeOk = false then .error .decodeResponse
  else
    match r.results with
    | [v] => if v < 0 then .error .negativeValue else .ok v
    | _ => .error .notExactlyOneValue

/-- One tick of the per-signal loop body in `Backpressure.metricsLoop`: on
error, increment the error counter labelled with the signal's name and
`continue` without touching the controller; on success, run
`updateThrottle`. `errCounts` maps a `query_name` label value to its
counter. -/
noncomputable def pollTick (q : BackpressureQuery) (resp : PollResponse)
    (s : CtrlState) (errCounts : String → ℕ) : CtrlState × (String → ℕ) :=
  match ValueFromPromQL resp with
  | .error _ => (s, fun n => if n = q.name then errCounts n + 1 else errCounts n)
  | .ok v => (CtrlState.updateThrottle q v s, errCounts)

/-- The ticks of one signal's poll loop, which never exits on an error. -/
noncomputable def metricLoopRun (q : BackpressureQuery) (resps : List PollResponse)
    (s : CtrlState) (ec : String → ℕ) : CtrlState × (String → ℕ) :=
  resps.foldl (fun acc r => pollTick q r acc.1 acc.2) (s, ec)

/-- A signal with no name: the spec says its operational counters are
suppressed. -/
noncomputable def unnamedQuery : BackpressureQuery := ⟨"", "up", 10, 100, 0⟩

/-- A named signal, for the witness. -/
noncomputable def namedQuery : BackpressureQuery := ⟨"mem", "memory_usage", 10, 100, 0⟩

/-- A poll whose HTTP round-trip failed. -/
def failedPoll : PollResponse := ⟨true, 200, true, []⟩

/-- An idle controller state. -/
noncomputable def idleCtrl : CtrlState := ⟨1, 0, 1, 4, 1, []⟩

/-- C9 counterexample: the claim says the per-signal error counter is
incremented only if the signal has a name, but `metricsLoop` calls
`queryErrCount.WithLabelValues(q.Name).Inc()` unconditionally: a failing
poll for the unnamed signal still bumps the counter labelled with the empty
name. -/
theorem poll_error_counter_unnamed :
    unnamedQuery.name = "" ∧
    (pollTick unnamedQuery failedPoll idleCtrl (fun _ => 0)).2 "" = 1 := by
  refine ⟨rfl, ?_⟩
  simp [pollTick, ValueFromPromQL, failedPoll, unnamedQuery]

/-- C9 (amended): a network failure, non-200 status, undecodable body, a
result vector whose length is not exactly one, or a negative scalar yields
an error, and exactly those do; on every such error the poller continues
with the next tick, the controller state — throttle map, allowance,
watermark — is untouched, and the error counter labelled with the signal's
name is incremented whether or not the signal has a name (the increment is
not suppressed for unnamed signals; see the counterexample). -/
theorem poll_error_spec (q : BackpressureQuery) (resp : PollResponse) (s : CtrlState)
    (ec : String → ℕ) (rest : List PollResponse) (e : PollError)
    (herr : ValueFromPromQL resp = .error e) :
    (pollTick q resp s ec).1 = s ∧
    (pollTick q resp s ec).2 q.name = ec q.name + 1 ∧
    (∀ n, n ≠ q.name → (pollTick q resp s ec).2 n = ec n) ∧
    metricLoopRun q (resp :: rest) s ec
      = metricLoopRun q rest (pollTick q resp s ec).1 (pollTick q resp s ec).2 ∧
    (∀ r2 : PollResponse, (∃ e2, ValueFromPromQL r2 = .error e2) ↔
      (r2.netErr = true ∨ r2.status ≠ 200 ∨ r2.decodeOk = false ∨
        r2.results.length ≠ 1 ∨ ∃ v, r2.results = [v] ∧ v < 0)) := by
  refine ⟨?_, ?_, ?_, ?_, ?_⟩
  · unfold pollTick
    rw [herr]
  · unfold pollTick
    rw [herr]
    simp
  · intro n hn
    unfold pollTick
    rw [herr]
    simp [hn]
  · unfold metricLoopRun
    rw [List.foldl_cons]
  · intro r2
    obtain ⟨ne, st, dok, res⟩ := r2
    unfold ValueFromPromQL
    cases ne with
    | true => simp
    | false =>
        by_cases hst : st = 200
        · subst hst
          cases dok with
          | false => simp
          | true =>
              rcases res with _ | ⟨v, _ | ⟨w, t⟩⟩
              · simp
              · by_cases hv : v < 0 <;> simp [hv]
              · simp
        · simp [hst]

/-- C9 witness: the error-path conclusions at a named signal and a failed
network round-trip. -/
theorem poll_error_spec_witness :
    (pollTick namedQuery failedPoll idleCtrl (fun _ => 0)).1 = idleCtrl ∧
    (pollTick namedQuery failedPoll idleCtrl (fun _ => 0)).2 "mem" = (fun _ => 0) "mem" + 1 :=
  ⟨(poll_error_spec namedQuery failedPoll idleCtrl (fun _ => 0) [] .executeRequest
      (by simp [ValueFromPromQL, failedPoll])).1,
   (poll_error_spec namedQuery failedPoll idleCtrl (fun _ => 0) [] .executeRequest
      (by simp [ValueFromPromQL, failedPoll])).2.1⟩

/-! ## Query-cost estimation and the low-cost bypass

`QueryCost` (query_cost.go) parses the request, plans the query and compares
the plan's minimum touched timestamp — computed by the external
`MinMaxTime` with `LookbackDelta: 5 * time.Minute` — against now minus two
hours.  The minimum touched timestamp is an input of the model; the request
model records the path, whether the body/query parse steps succeed, and
that timestamp in Unix milliseconds. -/

def InstantQueryEndpoint : String := "/api/v1/query"

def RangeQueryEndpoint : String := "/api/v1/query_range"

def ObjectStorageThreshold : ℤ := 100

/-- `LookbackDelta: 5 * time.Minute` of `QueryCost`, in milliseconds. -/
def QueryCostLookbackMs : ℤ := 300000

/-- `time.Hour * 2` of `QueryCost`, in milliseconds. -/
def TwoHoursMs : ℤ := 7200000

/-- A request as seen by the cost estimator. -/
structure CostRequest where
  path : String
  queryParses : Bool
  minTouchedMs : ℤ

/-- The non-block errors `QueryCost` can return. -/
inductive CostError
  | unrecognizedPath (p : String)
  | parseFailure
deriving DecidableEq, Repr

/-- `QueryCost`: reject paths other than the instant and range query
endpoints, fail when the request or query does not parse, and otherwise
return the threshold cost exactly when the minimum touched timestamp is
older than two hours before now. -/
def QueryCost (nowMs : ℤ) (r : CostRequest) : Except CostError ℤ :=
  if r.path = InstantQueryEndpoint ∨ r.path = RangeQueryEndpoint then
    if r.queryParses = false then .error .parseFailure
    else if r.minTouchedMs < nowMs - TwoHoursMs then .ok ObjectStorageThreshold
    else .ok 0
  else .error (.unrecognizedPath r.path)

/-- `LowCostRequest`: a request is low-cost when its cost is strictly below
`ObjectStorageThreshold` (on error, `Backpressure.Next` returns the error
before the flag is consulted). -/
def LowCostRequest (nowMs : ℤ) (r : CostRequest) : Except CostError Bool :=
  match QueryCost nowMs r with
  | .error e => .error e
  | .ok cost => .ok (decide (cost < ObjectStorageThreshold))

/-- The errors `Backpressure.Next` can return: only the backoff is a
`RequestBlockedError`; a classification error is a normal error. -/
inductive ProxyError
  | backpressureBackoff
  | classification (e : CostError)
  | downstream
deriving DecidableEq, Repr

/-- What one `Backpressure.Next` call did: the returned error if any,
whether `client.Next` ran, and whether `check` and `release` ran. -/
structure NextOutcome where
  err : Option ProxyError
  nextInvoked : Bool
  ranCheck : Bool
  ranRelease : Bool
deriving DecidableEq, Repr

/-- The gated tail of `Backpressure.Next`: `check`, then `client.Next` with
a deferred `release`. -/
def BackpressureNextGated (downstreamErr : Bool) (s : BPState) : NextOutcome × BPState :=
  match Backpressure.check s with
  | (some _, s0) => (⟨some .backpressureBackoff, false, true, false⟩, s0)
  | (none, s1) =>
      (⟨if downstreamErr then some .downstream else none, true, true, true⟩,
        Backpressure.release s1)

/-- `Backpressure.Next`: when the low-cost bypass is enabled, classify
first; a classification error is returned as-is, a low-cost request is
forwarded without `check`/`release`, and a high-cost request falls through
to the gated path. -/
def BackpressureNext (lowCostBypass : Bool) (nowMs : ℤ) (r : CostRequest)
    (downstreamErr : Bool) (s : BPState) : NextOutcome × BPState :=
  if lowCostBypass then
    match LowCostRequest nowMs r with
    | .error e => (⟨some (.classification e), false, false, false⟩, s)
    | .ok true =>
        (⟨if downstreamErr then some .downstream else none, true, false, false⟩, s)
    | .ok false => BackpressureNextGated downstreamErr s
  else BackpressureNextGated downstreamErr s

/-- C6: with the bypass enabled and a parsing query, an unrecognized path
makes classification fail and `Next` return the error as a normal
(non-block) error, without invoking the next stage, without running
`check`/`release`, and without touching the controller state; on the two
recognized paths the request is classified high-cost exactly when the
minimum touched timestamp is older than `now - 2h`, and a low-cost
classification forwards to the next stage with `check` and `release` never
run and the controller state untouched. -/
theorem bp_next_bypass_spec (nowMs : ℤ) (r : CostRequest) (ds : Bool) (s : BPState)
    (hp : r.queryParses = true) :
    (r.path ≠ InstantQueryEndpoint ∧ r.path ≠ RangeQueryEndpoint →
      BackpressureNext true nowMs r ds s
        = (⟨some (.classification (.unrecognizedPath r.path)), false, false, false⟩, s)) ∧
    (r.path = InstantQueryEndpoint ∨ r.path = RangeQueryEndpoint →
      (LowCostRequest nowMs r = .ok false ↔ r.minTouchedMs < nowMs - TwoHoursMs) ∧
      (¬ r.minTouchedMs < nowMs - TwoHoursMs →
        BackpressureNext true nowMs r ds s
          = (⟨if ds then some .downstream else none, true, false, false⟩, s))) := by
  constructor
  · intro ⟨hp1, hp2⟩
    have hq : QueryCost nowMs r = .error (.unrecognizedPath r.path) := by
      unfold QueryCost
      rw [if_neg (by simp [hp1, hp2])]
    unfold BackpressureNext LowCostRequest
    rw [hq]
    rfl
  · intro hpath
    have hcost : QueryCost nowMs r
        = if r.minTouchedMs < nowMs - TwoHoursMs then .ok ObjectStorageThreshold
          else .ok 0 := by
      unfold QueryCost
      rw [if_pos hpath, hp]
      simp
    constructor
    · unfold LowCostRequest
      rw [hcost]
      by_cases hmin : r.minTouchedMs < nowMs - TwoHoursMs
      · simp [hmin, ObjectStorageThreshold]
      · simp [hmin, ObjectStorageThreshold]
    · intro hmin
      unfold BackpressureNext LowCostRequest
      rw [hcost, if_neg hmin]
      simp [ObjectStorageThreshold]

/-- C6 witness: the bypass clauses evaluated for a recent instant query. -/
theorem bp_next_bypass_spec_witness :
    (InstantQueryEndpoint ≠ InstantQueryEndpoint ∧ InstantQueryEndpoint ≠ RangeQueryEndpoint →
      BackpressureNext true 10000000 ⟨InstantQueryEndpoint, true, 9000000⟩ false
          (NewBackpressure 1 4)
        = (⟨some (.classification (.unrecognizedPath InstantQueryEndpoint)),
            false, false, false⟩, NewBackpressure 1 4)) ∧
    (InstantQueryEndpoint = InstantQueryEndpoint ∨ InstantQueryEndpoint = RangeQueryEndpoint →
      (LowCostRequest 10000000 ⟨InstantQueryEndpoint, true, 9000000⟩ = .ok false ↔
        (9000000 : ℤ) < 10000000 - TwoHoursMs) ∧
      (¬ (9000000 : ℤ) < 10000000 - TwoHoursMs →
        BackpressureNext true 10000000 ⟨InstantQueryEndpoint, true, 9000000⟩ false
            (NewBackpressure 1 4)
          = (⟨if false then some .downstream else none, true, false, false⟩,
              NewBackpressure 1 4))) :=
  bp_next_bypass_spec 10000000 ⟨InstantQueryEndpoint, true, 9000000⟩ false
    (NewBackpressure 1 4) rfl

/-! ## Jitterer

`time.ParseDuration` is external; the model takes the parser as a function
returning the parsed duration in nanoseconds, or nothing on failure. -/

def CriticalityCriticalPlus : String := "CRITICAL_PLUS"

def CriticalityCritical : String := "CRITICAL"

def CriticalityDefault : String := CriticalityCritical

/-- `ParseHeaderKey` on one header's value list: the first value, or the
key's default when the list is empty or the first value is empty. -/
def ParseHeaderKeyVals (vals : List String) (dflt : String) : String :=
  match vals with
  | [] => dflt
  | v :: _ => if v = "" then dflt else v

/-- The request fields the jitterer reads: the two header value lists and
whether the request's cancellation handle fires before the jitter timer. -/
structure JitterRequest where
  criticalityVals : List String
  canWaitVals : List String
  cancelledBeforeSleep : Bool
deriving DecidableEq, Repr

/-- The `Jitterer` configuration: the configured delay (nanoseconds) and
whether criticality handling is enabled. -/
structure Jitterer where
  delay : ℤ
  criticality : Bool
deriving DecidableEq, Repr

/-- `Jitterer.getDelay`: zero for critical-plus requests when criticality
handling is on (the wait budget is not consulted); otherwise the configured
delay when `X-Can-Wait` is absent, `max(parsed, configured)` when it parses,
and the parse error otherwise (the error carries the offending value). -/
def Jitterer.getDelay (parseDuration : String → Option ℤ) (j : Jitterer)
    (r : JitterRequest) : Except String ℤ :=
  if j.criticality = true ∧
      ParseHeaderKeyVals r.criticalityVals CriticalityDefault = CriticalityCriticalPlus then
    .ok 0
  else
    let canWait := ParseHeaderKeyVals r.canWaitVals ""
    if canWait = "" then .ok j.delay
    else
      match parseDuration canWait with
      | none => .error canWait
      | some w => .ok (max w j.delay)

/-- What one `Jitterer.Next` call returned. -/
inductive JitterResult
  | parseError (value : String)
  | forwarded (downstreamErr : Bool)
deriving DecidableEq, Repr

/-- One `Jitterer.Next` run: the result, whether the next stage ran, and
whether the full random jitter elapsed before forwarding. -/
structure JitterRun where
  result : JitterResult
  nextInvoked : Bool
  sleptFullJitter : Bool
deriving DecidableEq, Repr

/-- `Jitterer.Next`: compute the delay (returning a parse error to the
caller), run `sleep` — which returns at once for a zero delay and otherwise
waits the random jitter unless the request's cancellation fires first — and
then invoke the next stage unconditionally. -/
def Jitterer.nextRun (parseDuration : String → Option ℤ) (j : Jitterer) (r : JitterRequest)
    (downstreamErr : Bool) : JitterRun :=
  match Jitterer.getDelay parseDuration j r with
  | .error v => ⟨.parseError v, false, false⟩
  | .ok d =>
      ⟨.forwarded downstreamErr, true,
        if d = 0 then true else ! r.cancelledBeforeSleep⟩

/-- A one-second jitter configuration without criticality handling. -/
def plainJitterer : Jitterer := ⟨1000000000, false⟩

/-- A request whose cancellation handle fires before the jitter elapses. -/
def cancelledRequest : JitterRequest := ⟨[], [], true⟩

/-- C7 counterexample: a request cancelled before the jitter elapses is
still forwarded — `Jitterer.Next` calls `j.client.Next(rr)` after `sleep`
returns, whichever side of the `select` fired — so the claim that the next
stage is never invoked for such a request is false. -/
theorem jitter_cancel_counterexample :
    cancelledRequest.cancelledBeforeSleep = true ∧
    (Jitterer.nextRun (fun _ => none) plainJitterer cancelledRequest false).nextInvoked
      = true := by decide

/-- C7 (amended): when the request's cancellation handle fires before the
jitter elapses, the sleep is cut short — the stage does not wait out the
jitter window — but the next stage is still invoked; the jitterer never
skips its downstream call on cancellation. -/
theorem jitter_cancel_spec (parseDuration : String → Option ℤ) (j : Jitterer)
    (r : JitterRequest) (ds : Bool) (d : ℤ)
    (hd : Jitterer.getDelay parseDuration j r = .ok d) (hd0 : d ≠ 0)
    (hc : r.cancelledBeforeSleep = true) :
    (Jitterer.nextRun parseDuration j r ds).sleptFullJitter = false ∧
    (Jitterer.nextRun parseDuration j r ds).nextInvoked = true := by
  unfold Jitterer.nextRun
  rw [hd]
  simp [hd0, hc]

/-- C7 witness: the amended statement for the one-second jitterer and the
cancelled request. -/
theorem jitter_cancel_spec_witness :
    (Jitterer.nextRun (fun _ => none) plainJitterer cancelledRequest false).sleptFullJitter
        = false ∧
    (Jitterer.nextRun (fun _ => none) plainJitterer cancelledRequest false).nextInvoked
        = true :=
  jitter_cancel_spec (fun _ => none) plainJitterer cancelledRequest false 1000000000
    rfl (by decide) rfl

/-- C8: the jitter delay derivation.  With criticality handling enabled and
an `X-Request-Criticality` of `CRITICAL_PLUS`, the delay is zero for every
wait-budget header and every parser — the wait budget is never consulted.
Otherwise an absent (or empty-valued) `X-Can-Wait` yields the configured
delay; a present value that fails to parse is returned to the caller as an
error; and a parsed wait `dur` yields `max dur j.delay`. -/
theorem jitter_delay_spec (parseDuration : String → Option ℤ) (j : Jitterer)
    (r : JitterRequest) :
    (j.criticality = true →
      ParseHeaderKeyVals r.criticalityVals CriticalityDefault = CriticalityCriticalPlus →
      ∀ otherWait : List String, ∀ otherParser : String → Option ℤ,
        Jitterer.getDelay otherParser j
          ⟨r.criticalityVals, otherWait, r.cancelledBeforeSleep⟩ = .ok 0) ∧
    ((j.criticality = true →
        ParseHeaderKeyVals r.criticalityVals CriticalityDefault ≠ CriticalityCriticalPlus) →
      (ParseHeaderKeyVals r.canWaitVals "" = "" →
        Jitterer.getDelay parseDuration j r = .ok j.delay) ∧
      (∀ w : String, ParseHeaderKeyVals r.canWaitVals "" = w → w ≠ "" →
        (parseDuration w = none → Jitterer.getDelay parseDuration j r = .error w) ∧
        (∀ dur : ℤ, parseDuration w = some dur →
          Jitterer.getDelay parseDuration j r = .ok (max dur j.delay)))) := by
  constructor
  · intro hcrit hplus otherWait otherParser
    unfold Jitterer.getDelay
    rw [if_pos ⟨hcrit, hplus⟩]
  · intro hnot
    have hcond : ¬ (j.criticality = true ∧
        ParseHeaderKeyVals r.criticalityVals CriticalityDefault = CriticalityCriticalPlus) := by
      intro ⟨h1, h2⟩
      exact hnot h1 h2
    constructor
    · intro habsent
      unfold Jitterer.getDelay
      rw [if_neg hcond]
      simp [habsent]
    · intro w hw hne
      constructor
      · intro hparse
        unfold Jitterer.getDelay
        rw [if_neg hcond]
        simp only [hw, if_neg hne, hparse]
      · intro dur hparse
        unfold Jitterer.getDelay
        rw [if_neg hcond]
        simp only [hw, if_neg hne, hparse]

/-! ## Observer -/

/-- The errors an `Observer.Next` call can surface. -/
inductive ObserverError
  | requestBlocked (mwType : String)
  | generic
  | contextCancelled
  | panicCallingNext (detail : String)
deriving DecidableEq, Repr

/-- How the downstream task of `Observer.executeNext` ends: a nil error, an
error, or a panic (recovered and converted to an error). -/
inductive DownstreamOutcome
  | ok
  | fail (e : ObserverError)
  | panics (detail : String)
deriving DecidableEq, Repr

/-- `Observer.executeNext`: select between the downstream task's result and
the request's cancellation; when cancellation wins the result is the
context's error, and a downstream panic is recovered into a
`"panic calling Next"` error. -/
def executeNext (cancelWins : Bool) (out : DownstreamOutcome) : Option ObserverError :=
  if cancelWins then some .contextCancelled
  else
    match out with
    | .ok => none
    | .fail e => some e
    | .panics d => some (.panicCallingNext d)

/-- The observer's metric state: the in-flight gauge, the request counter,
the generic error counter, the per-source block counters and the number of
latency observations. -/
structure ObserverState where
  activeGauge : ℤ
  reqCount : ℕ
  errCount : ℕ
  blockCount : String → ℕ
  latencyObservations : ℕ

/-- `Observer.Next`: increment the in-flight gauge with a deferred
decrement, run `executeNext`, record the request and its latency, classify
the error into the block or error counter, and propagate the error
unchanged; the deferred decrement runs on every path. -/
def observerNext (cancelWins : Bool) (out : DownstreamOutcome) (s : ObserverState) :
    Option ObserverError × ObserverState :=
  let s1 := { s with activeGauge := s.activeGauge + 1 }
  let err := executeNext cancelWins out
  let s2 := { s1 with
    reqCount := s1.reqCount + 1
    latencyObservations := s1.latencyObservations + 1 }
  let s3 :=
    match err with
    | some (.requestBlocked t) =>
        { s2 with blockCount := fun n => if n = t then s2.blockCount n + 1 else s2.blockCount n }
    | some _ => { s2 with errCount := s2.errCount + 1 }
    | none => s2
  (err, { s3 with activeGauge := s3.activeGauge - 1 })

/-- C10: on every path — downstream success, downstream error, cancellation
winning the race, and a downstream panic converted to a normal error — the
in-flight gauge is back to its pre-request value when `Observer.Next`
returns, and the exit bookkeeping (latency observation and request count,
which the gauge decrement follows) runs. -/
theorem observer_gauge_balanced (cancelWins : Bool) (out : DownstreamOutcome)
    (s : ObserverState) :
    (observerNext cancelWins out s).2.activeGauge = s.activeGauge ∧
    (observerNext cancelWins out s).2.latencyObservations = s.latencyObservations + 1 ∧
    (observerNext cancelWins out s).2.reqCount = s.reqCount + 1 ∧
    (observerNext cancelWins out s).1 = executeNext cancelWins out ∧
    (cancelWins = true → (observerNext cancelWins out s).1 = some .contextCancelled) ∧
    (cancelWins = false → out = .ok → (observerNext cancelWins out s).1 = none) ∧
    (∀ e, cancelWins = false → out = .fail e → (observerNext cancelWins out s).1 = some e) ∧
    (∀ d, cancelWins = false → out = .panics d →
      (observerNext cancelWins out s).1 = some (.panicCallingNext d)) := by
  refine ⟨?_, ?_, ?_, rfl, ?_, ?_, ?_, ?_⟩
  · unfold observerNext
    cases hcw : executeNext cancelWins out with
    | none => simp
    | some e => cases e <;> simp [hcw]
  · unfold observerNext
    cases hcw : executeNext cancelWins out with
    | none => simp
    | some e => cases e <;> simp [hcw]
  · unfold observerNext
    cases hcw : executeNext cancelWins out with
    | none => simp
    | some e => cases e <;> simp [hcw]
  · intro hc
    simp [observerNext, executeNext, hc]
  · intro hc ho
    simp [observerNext, executeNext, hc, ho]
  · intro e hc ho
    simp [observerNext, executeNext, hc, ho]
  · intro d hc ho
    simp [observerNext, executeNext, hc, ho]

end ThrottleProxy
